import Mathlib

/-!
Shallow embedding of the core state-tracking logic of
`src/houseseats_checker.py` (HouseSeats/1stTix show checker):
show records, dedup/rarity keys, history update and pruning, the
snapshot merge in `save_shows`, the denylist filter, the connectors'
normalization steps, and the hand-rolled Pacific-time DST window.

The Python code reads the wall clock inside several functions
(`datetime.now()`); the embedding lifts the derived date strings
(`today`, `cutoff_str`, `timestamp`) into explicit parameters.
Python dicts keyed by strings are modelled as association lists
(lookup = first match) or, for the per-source timestamp map, as a
function `String → Option String`.  Dict fields accessed through
`.get(field, "")` are modelled as plain `String` fields defaulting
to `""` (the code never distinguishes an absent key from `""`:
every check is a truthiness check).
-/

namespace HSChecker

/-- A show record.  Fields absent from the underlying Python dict are
`""` (resp. `none` for `rare`, which is only attached by
`mark_rare_shows`). -/
structure Show where
  name : String := ""
  date : String := ""
  source : String := ""
  link : String := ""
  image : String := ""
  rare : Option Bool := none
deriving Repr, DecidableEq

/-- `RARE_THRESHOLD_DAYS = 30` from the configuration block. -/
def RARE_THRESHOLD_DAYS : Nat := 30

/-- `RARE_THRESHOLD_COUNT = 3` from the configuration block. -/
def RARE_THRESHOLD_COUNT : Nat := 3

/-- `HOUSESEATS_BASE_URL` from the configuration block. -/
def HOUSESEATS_BASE_URL : String := "https://lv.houseseats.com"

/-- Python `str.lower()` (ASCII case mapping), at the character-list
level so that terms reduce in the kernel. -/
def strToLower (s : String) : String :=
  ⟨s.data.map Char.toLower⟩

/-- Python `str.strip()`: drop leading and trailing whitespace. -/
def strTrim (s : String) : String :=
  ⟨((s.data.dropWhile Char.isWhitespace).reverse.dropWhile Char.isWhitespace).reverse⟩

/-- Python `str.startswith(pre)`. -/
def strStartsWith (s pre : String) : Bool :=
  pre.data.isPrefixOf s.data

/-- Lexicographic-by-code-point `≤` on character lists (Python string
comparison). -/
def charListLe : List Char → List Char → Bool
  | [], _ => true
  | _ :: _, [] => false
  | a :: as, b :: bs =>
    if a < b then true
    else if b < a then false
    else charListLe as bs

/-- Python `a <= b` on strings (so Python `d >= c` is `strLe c d`). -/
def strLe (a b : String) : Bool :=
  charListLe a.data b.data

/-- Lexicographic-by-code-point `<` on character lists (Python string
comparison). -/
def charListLt : List Char → List Char → Bool
  | [], [] => false
  | [], _ :: _ => true
  | _ :: _, [] => false
  | a :: as, b :: bs =>
    if a < b then true
    else if b < a then false
    else charListLt as bs

/-- Python `a < b` on strings. -/
def strLt (a b : String) : Bool :=
  charListLt a.data b.data

/-- `get_show_name_key(show)`: the f-string `source|name` with
`name` the show's name `.strip().lower()`ed and
`source` the show's source `.strip()`ped. -/
def get_show_name_key (sh : Show) : String :=
  strTrim sh.source ++ "|" ++ strToLower (strTrim sh.name)

/-- `get_show_key(show)`: the f-string `source|name|date` with each
component `.strip()`ped. -/
def get_show_key (sh : Show) : String :=
  strTrim sh.source ++ "|" ++ strTrim sh.name ++ "|" ++ strTrim sh.date

/-- One value of the `show_history.json` `"shows"` dict. -/
structure HistoryEntry where
  name : String
  source : String
  appearances : List String
deriving Repr, DecidableEq

/-- The `"shows"` dict of the history file, as an association list. -/
abbrev ShowHistory := List (String × HistoryEntry)

/-- Dict lookup (`history["shows"].get(key)` / `key in history["shows"]`):
first entry with the given key. -/
def histLookup : ShowHistory → String → Option HistoryEntry
  | [], _ => none
  | p :: rest, key => if key = p.1 then some p.2 else histLookup rest key

/-- `key in history["shows"]`. -/
def histHasKey (h : ShowHistory) (key : String) : Bool :=
  (histLookup h key).isSome

/-- The `appearances` list recorded under a key (`[]` when the key is
absent). -/
def appearancesOf (h : ShowHistory) (key : String) : List String :=
  match histLookup h key with
  | none => []
  | some e => e.appearances

/-- The second half of one `update_show_history` loop iteration:
`if today not in history["shows"][key]["appearances"]: ... .append(today)`,
applied to the entry (entries) with the given key. -/
def appendToday (today key : String) (h : ShowHistory) : ShowHistory :=
  h.map (fun p =>
    if p.1 = key then
      (p.1,
        if today ∈ p.2.appearances then p.2
        else { p.2 with appearances := p.2.appearances ++ [today] })
    else p)

/-- One iteration of the `for show in shows` loop of
`update_show_history`: ensure the key's entry exists (inserted with
empty `appearances`), then record `today` if not already present. -/
def update_show_history_step (today : String) (h : ShowHistory) (sh : Show) :
    ShowHistory :=
  let key := get_show_name_key sh
  let h' :=
    if histHasKey h key then h
    else h ++ [(key, { name := sh.name, source := sh.source, appearances := [] })]
  appendToday today key h'

/-- `update_show_history(shows, history)` with
`today = datetime.now().strftime("%Y-%m-%d")` lifted to a parameter. -/
def update_show_history (shows : List Show) (h : ShowHistory) (today : String) :
    ShowHistory :=
  shows.foldl (update_show_history_step today) h

/-- `is_rare_show(show, history)` with
`cutoff_str = (now - timedelta(days=RARE_THRESHOLD_DAYS)).strftime("%Y-%m-%d")`
lifted to a parameter.  `date >= cutoff_str` is Python lexicographic
string comparison, embedded as `strLe cutoff_str date`. -/
def is_rare_show (sh : Show) (h : ShowHistory) (cutoff_str : String) : Bool :=
  match histLookup h (get_show_name_key sh) with
  | none => true
  | some e =>
    decide (e.appearances.countP (fun d => strLe cutoff_str d) < RARE_THRESHOLD_COUNT)

/-- `mark_rare_shows(shows, history)`: sets the `rare` field on every
show in place; the returned list is the input list with each dict so
mutated. -/
def mark_rare_shows (shows : List Show) (h : ShowHistory) (cutoff_str : String) :
    List Show :=
  shows.map (fun sh => { sh with rare := some (is_rare_show sh h cutoff_str) })

/-- `cleanup_old_history(history, max_age_days)` with
`cutoff_str = (now - timedelta(days=max_age_days)).strftime("%Y-%m-%d")`
lifted to a parameter: per key keep only `date >= cutoff_str`, then
drop keys whose `appearances` became empty. -/
def cleanup_old_history (h : ShowHistory) (cutoff_str : String) : ShowHistory :=
  (h.map (fun p =>
    (p.1, { p.2 with appearances := p.2.appearances.filter (fun d => strLe cutoff_str d) }))).filter
    (fun p => !p.2.appearances.isEmpty)

/-- `find_new_shows(shows, notified)`: the loop that appends each show
whose `get_show_key` is not in the notified set. -/
def find_new_shows (shows : List Show) (notified : List String) : List Show :=
  shows.foldl (fun acc sh => if get_show_key sh ∈ notified then acc else acc ++ [sh]) []

/-- Python substring test `needle in hay` on character lists. -/
def containsSub (needle : List Char) : List Char → Bool
  | [] => needle.isEmpty
  | c :: rest => needle.isPrefixOf (c :: rest) || containsSub needle rest

/-- Python `needle in hay` on strings. -/
def strContainsSub (hay needle : String) : Bool :=
  containsSub needle.data hay.data

/-- `filter_shows(shows, denylist)`: the loop keeping each show none of
whose denylist entries occurs in the lowercased show name. -/
def filter_shows (shows : List Show) (denylist : List String) : List Show :=
  shows.foldl (fun acc sh =>
    if denylist.any (fun denied => strContainsSub (strToLower sh.name) denied) then acc
    else acc ++ [sh]) []

/-- The structure written by `save_shows` to `available_shows.json`;
the per-source timestamp dict is modelled as a partial map. -/
structure Snapshot where
  last_updated : String
  last_updated_by_source : String → Option String
  count : Nat
  shows : List Show

/-- `save_shows(shows, sources_checked)`: the prior file contents
(`existing_shows`, `existing_timestamps`) and the current Pacific
timestamp string are lifted to parameters.  Timestamps of checked
sources are overwritten; prior shows of checked sources are dropped
and this run's shows appended. -/
def save_shows (shows : List Show) (sources_checked : List String)
    (existing_shows : List Show) (existing_timestamps : String → Option String)
    (timestamp : String) : Snapshot :=
  let last_updated_by_source :=
    sources_checked.foldl
      (fun acc source => fun s => if s = source then some timestamp else acc s)
      existing_timestamps
  let merged_shows :=
    existing_shows.foldl
      (fun acc sh => if sh.source ∈ sources_checked then acc else acc ++ [sh]) []
    ++ shows
  { last_updated := timestamp
    last_updated_by_source := last_updated_by_source
    count := merged_shows.length
    shows := merged_shows }

/-- Outcome of `send_email_notification(new_shows)` as a function of the
inputs that decide it: returns `true` on empty input, `false` when
`SMTP_PASSWORD` is unset, else the result of the SMTP attempt
(lifted to the parameter `smtp_send_ok`). -/
def send_email_notification_outcome (new_shows : List Show) (smtp_password : String)
    (smtp_send_ok : Bool) : Bool :=
  if new_shows.isEmpty then true
  else if smtp_password = "" then false
  else smtp_send_ok

/-- The notification tail of `main`: compute `new_shows`; when non-empty
send the email (result ignored), add every new show's `get_show_key`
to the notified set and persist it.  Returns the in-memory notified
set, whether `save_notified_shows` was called, and the email outcome
(`none` when no email was attempted). -/
def notification_step (filtered_shows : List Show) (notified : List String)
    (smtp_password : String) (smtp_send_ok : Bool) :
    List String × Bool × Option Bool :=
  let new_shows := find_new_shows filtered_shows notified
  if new_shows.isEmpty then (notified, false, none)
  else
    let email_ok := send_email_notification_outcome new_shows smtp_password smtp_send_ok
    (notified ++ new_shows.map get_show_key, true, some email_ok)

/-- The show-relevant content of one `div.panel-default` of the
HouseSeats upcoming-shows page, as read by `fetch_houseseats_shows`:
the heading's `<a>` (its text and `href`, `none` when the heading or
the link is missing), the `grid-cal-date` text, and the
`img.img-responsive` `src`. -/
structure HSPanel where
  headingLink : Option (String × String) := none
  dateText : Option String := none
  imgSrc : Option String := none
deriving Repr, DecidableEq

/-- The relative-URL fixup for the heading link's `href` in
`fetch_houseseats_shows`. -/
def hs_absolutize (href : String) : String :=
  if strStartsWith href "./" then HOUSESEATS_BASE_URL ++ "/member/" ++ href.drop 2
  else if !(strStartsWith href "http") then HOUSESEATS_BASE_URL ++ href
  else href

/-- The per-panel body of `fetch_houseseats_shows`: builds the
`show_info` dict (`source` preset to `"HouseSeats"`; `name` and
`link` from the heading link, `link` only when `href` is truthy;
`date` from `grid-cal-date`; `image` from the panel image when its
`src` is truthy). -/
def hs_show_of_panel (panel : HSPanel) : Show :=
  let s0 : Show := { source := "HouseSeats" }
  let s1 :=
    match panel.headingLink with
    | none => s0
    | some (text, href) =>
      let s := { s0 with name := text }
      if href ≠ "" then { s with link := hs_absolutize href } else s
  let s2 :=
    match panel.dateText with
    | none => s1
    | some d => { s1 with date := d }
  match panel.imgSrc with
  | none => s2
  | some src =>
    if src ≠ "" then
      { s2 with image := if !(strStartsWith src "http") then HOUSESEATS_BASE_URL ++ src else src }
    else s2

/-- `fetch_houseseats_shows`: one show per panel, appended iff the
`name` field ended up truthy. -/
def fetch_houseseats_shows (panels : List HSPanel) : List Show :=
  (panels.map hs_show_of_panel).filter (fun s => s.name != "")

/-- `sponsor_patterns` from `fetch_firsttix_shows`. -/
def sponsor_patterns : List String :=
  ["tactical", "coursera", "courses", "certs", "degrees", "sponsor", "donate",
   "discount", "coupon", "hotel", "free courses", "cooperator", "5.11"]

/-- The show-relevant content of one `div.event` of a 1stTix events
page, as read by `fetch_firsttix_shows`: the `img` `alt` and `src`
attributes, the `entry-title` text, the date and time regex matches
over the `entry-meta` text, and the `get-tickets/event` link's
`href` (`none` when the element/attribute/match is missing). -/
structure FTEvent where
  imgAlt : Option String := none
  entryTitleText : Option String := none
  dateMatch : Option String := none
  timeMatch : Option String := none
  linkHref : Option String := none
  imgSrc : Option String := none
deriving Repr, DecidableEq

/-- The per-event dict construction of `fetch_firsttix_shows`:
`name` from the image `alt` when truthy, else from `entry-title`;
`date` = date match, with the time match appended after a space when
both matched; `link` from the event link's `href` (default `""`). -/
def ft_show_of_event (e : FTEvent) : Show :=
  let name :=
    match e.imgAlt with
    | some alt => if alt ≠ "" then alt else e.entryTitleText.getD ""
    | none => e.entryTitleText.getD ""
  let date :=
    match e.dateMatch with
    | none => ""
    | some d => d ++ (match e.timeMatch with | none => "" | some t => " " ++ t)
  { source := "1stTix", name := name, date := date,
    link := e.linkHref.getD "", image := e.imgSrc.getD "" }

/-- `is_sponsor` in `fetch_firsttix_shows`: any sponsor pattern occurs
in the lowercased name. -/
def ft_is_sponsor (name : String) : Bool :=
  sponsor_patterns.any (fun pat => strContainsSub (strToLower name) pat)

/-- The append condition of `fetch_firsttix_shows`: truthy name, not a
sponsor, truthy event link and truthy date. -/
def ft_keep (s : Show) : Bool :=
  s.name != "" && !(ft_is_sponsor s.name) && s.link != "" && s.date != ""

/-- `fetch_firsttix_shows`, over the concatenation of the event divs of
all fetched pages. -/
def fetch_firsttix_shows (events : List FTEvent) : List Show :=
  (events.map ft_show_of_event).filter ft_keep

/-- Gregorian leap-year rule (Python `datetime`'s calendar). -/
def isLeapYear (y : Nat) : Bool :=
  (y % 4 == 0 && y % 100 != 0) || y % 400 == 0

/-- Days in the months before month `m` (1-based) of a year with the
given leap flag. -/
def daysBeforeMonth (m : Nat) (leap : Bool) : Nat :=
  let base :=
    match m with
    | 1 => 0 | 2 => 31 | 3 => 59 | 4 => 90 | 5 => 120 | 6 => 151
    | 7 => 181 | 8 => 212 | 9 => 243 | 10 => 273 | 11 => 304 | _ => 334
  if leap ∧ 2 < m then base + 1 else base

/-- Rata-die day number of the proleptic Gregorian date `y-m-d`
(`0001-01-01` is day 1), the day count underlying Python
`datetime.date.toordinal()`. -/
def rataDie (y m d : Nat) : Nat :=
  365 * (y - 1) + (y - 1) / 4 - (y - 1) / 100 + (y - 1) / 400
    + daysBeforeMonth m (isLeapYear y) + d

/-- Python `datetime.weekday()`: Monday = 0 … Sunday = 6.
`0001-01-01` (rata die 1) is a Monday. -/
def pythonWeekday (y m d : Nat) : Nat :=
  (rataDie y m d + 6) % 7

/-- Day-of-March of `dst_start` in `get_pacific_time`:
`march_first + timedelta(days=(6 - march_first.weekday() + 7) % 7 + 7)`. -/
def dst_start_day (y : Nat) : Nat :=
  1 + ((6 - pythonWeekday y 3 1 + 7) % 7 + 7)

/-- Day-of-November of `dst_end` in `get_pacific_time`:
`nov_first + timedelta(days=(6 - nov_first.weekday()) % 7)`. -/
def dst_end_day (y : Nat) : Nat :=
  1 + ((6 - pythonWeekday y 11 1) % 7)

/-- A UTC datetime `y-m-d` plus `sec` seconds into the day, as absolute
seconds; `datetime` comparison is comparison of these numbers. -/
def instantSeconds (y m d sec : Nat) : Nat :=
  rataDie y m d * 86400 + sec

/-- The UTC-offset selection of `get_pacific_time`, for a UTC instant
with calendar fields `y-m-d` and `sec` seconds past midnight:
`-7` when `dst_start <= utc_now < dst_end` for this year's computed
window bounds (both midnights), else `-8`. -/
def get_pacific_offset_hours (y m d sec : Nat) : Int :=
  let t := instantSeconds y m d sec
  let ds := instantSeconds y 3 (dst_start_day y) 0
  let de := instantSeconds y 11 (dst_end_day y) 0
  if ds ≤ t ∧ t < de then -7 else -8

/-! ## Helper lemmas -/

/-- A loop that appends `x` exactly when `c x` fails is a filter. -/
theorem foldl_ite_append {α : Type} (c : α → Prop) [DecidablePred c] (l : List α) :
    ∀ acc : List α,
      l.foldl (fun a x => if c x then a else a ++ [x]) acc
        = acc ++ l.filter (fun x => !(decide (c x))) := by
  induction l with
  | nil => intro acc; simp
  | cons x xs ih =>
    intro acc
    by_cases h : c x
    · simp [h, ih]
    · simp [h, ih]

/-- `find_new_shows` keeps, in order, exactly the shows whose key is not
in the notified set. -/
theorem find_new_shows_eq_filter (shows : List Show) (notified : List String) :
    find_new_shows shows notified
      = shows.filter (fun sh => !(decide (get_show_key sh ∈ notified))) := by
  unfold find_new_shows
  simpa using foldl_ite_append (fun sh => get_show_key sh ∈ notified) shows []

/-- `containsSub` decides Python's unanchored substring relation. -/
theorem containsSub_iff_infix (needle hay : List Char) :
    containsSub needle hay = true ↔
      ∃ pre post : List Char, hay = pre ++ needle ++ post := by
  induction hay with
  | nil =>
    simp only [containsSub, List.isEmpty_iff]
    constructor
    · rintro rfl
      exact ⟨[], [], rfl⟩
    · rintro ⟨pre, post, h⟩
      have h' := h.symm
      simp only [List.append_assoc, List.append_eq_nil] at h'
      exact h'.2.1
  | cons c cs ih =>
    simp only [containsSub, Bool.or_eq_true, List.isPrefixOf_iff_prefix]
    constructor
    · rintro (⟨t, ht⟩ | hsub)
      · exact ⟨[], t, by simp [ht.symm]⟩
      · rcases ih.mp hsub with ⟨pre, post, hcs⟩
        exact ⟨c :: pre, post, by simp [hcs]⟩
    · rintro ⟨pre, post, hEq⟩
      cases pre with
      | nil =>
        left
        exact ⟨post, by simpa using hEq.symm⟩
      | cons p ps =>
        right
        apply ih.mpr
        refine ⟨ps, post, ?_⟩
        have h' : c :: cs = p :: (ps ++ needle ++ post) := by simpa using hEq
        injection h' with h1 h2

/-- `strContainsSub` decides the substring relation on strings. -/
theorem strContainsSub_iff (hay needle : String) :
    strContainsSub hay needle = true ↔
      ∃ pre post : List Char, hay.data = pre ++ needle.data ++ post :=
  containsSub_iff_infix needle.data hay.data

/-! ## Claims -/

/-- C8: `filter_shows(shows, denylist)` returns exactly the subsequence
of `shows` (original order preserved) whose lowercased name contains no
denylist entry as an unanchored substring (`strContainsSub` is proved to
decide exactly the substring relation); "The Masked Singer Live" is
excluded under the denylist entry "masked singer" and included under a
denylist of unrelated entries. -/
theorem filter_shows_spec (shows : List Show) (denylist : List String) :
    (filter_shows shows denylist
      = shows.filter
          (fun sh => !(denylist.any (fun denied => strContainsSub (strToLower sh.name) denied)))) ∧
    (∀ hay needle : String,
      strContainsSub hay needle = true ↔
        ∃ pre post : List Char, hay.data = pre ++ needle.data ++ post) ∧
    (filter_shows [{ name := "The Masked Singer Live" : Show }] ["masked singer"] = []) ∧
    (filter_shows [{ name := "The Masked Singer Live" : Show }] ["rolling stones", "u2"]
      = [{ name := "The Masked Singer Live" : Show }]) := by
  refine ⟨?_, fun hay needle => strContainsSub_iff hay needle, by decide, by decide⟩
  unfold filter_shows
  have h := foldl_ite_append
    (fun sh : Show =>
      (denylist.any (fun denied => strContainsSub (strToLower sh.name) denied)) = true)
    shows []
  simpa only [List.nil_append, Bool.decide_eq_true] using h

/-- C4 (amended): `find_new_shows(shows, notified)` is exactly the
subsequence of `shows`, in order, whose `get_show_key` is not in
`notified`; two shows with identical name and source whose dates differ
*after stripping* have distinct ShowKeys; and every member of `shows`
whose key is not in `notified` appears in the result. -/
theorem find_new_shows_spec (shows : List Show) (notified : List String) :
    (find_new_shows shows notified
      = shows.filter (fun sh => !(decide (get_show_key sh ∈ notified)))) ∧
    (∀ s1 s2 : Show, s1.name = s2.name → s1.source = s2.source →
      strTrim s1.date ≠ strTrim s2.date → get_show_key s1 ≠ get_show_key s2) ∧
    (∀ s : Show, s ∈ shows → get_show_key s ∉ notified →
      s ∈ find_new_shows shows notified) := by
  refine ⟨find_new_shows_eq_filter shows notified, ?_, ?_⟩
  · intro s1 s2 hn hs hd hkey
    apply hd
    unfold get_show_key at hkey
    rw [hn, hs] at hkey
    have hdata := congrArg String.data hkey
    simp only [String.data_append, List.append_assoc, List.append_cancel_left_eq] at hdata
    exact String.ext hdata
  · intro s hmem hnot
    rw [find_new_shows_eq_filter]
    simp [List.mem_filter, hmem, hnot]

/-- C4 counterexample: two shows with identical name and source and
*different* date strings (one has a trailing space) produce the *same*
ShowKey, because `get_show_key` strips each component. -/
theorem get_show_key_trailing_space_collision :
    ({ name := "A", source := "S", date := "2026-02-01" : Show }).date
        ≠ ({ name := "A", source := "S", date := "2026-02-01 " : Show }).date ∧
    ({ name := "A", source := "S", date := "2026-02-01" : Show }).name
        = ({ name := "A", source := "S", date := "2026-02-01 " : Show }).name ∧
    ({ name := "A", source := "S", date := "2026-02-01" : Show }).source
        = ({ name := "A", source := "S", date := "2026-02-01 " : Show }).source ∧
    get_show_key { name := "A", source := "S", date := "2026-02-01" : Show }
        = get_show_key { name := "A", source := "S", date := "2026-02-01 " : Show } := by
  decide

/-- Witness for C4: concrete distinct trimmed dates give distinct keys,
and with an empty notified set both shows are surfaced. -/
theorem find_new_shows_spec_witness :
    get_show_key { name := "A", source := "S", date := "Feb 4" : Show }
        ≠ get_show_key { name := "A", source := "S", date := "Feb 5" : Show } ∧
    ({ name := "A", source := "S", date := "Feb 4" : Show }
        ∈ find_new_shows
            [{ name := "A", source := "S", date := "Feb 4" : Show },
             { name := "A", source := "S", date := "Feb 5" : Show }] []) :=
  ⟨(find_new_shows_spec [] []).2.1
      { name := "A", source := "S", date := "Feb 4" : Show }
      { name := "A", source := "S", date := "Feb 5" : Show }
      (by decide) (by decide) (by decide),
   (find_new_shows_spec
      [{ name := "A", source := "S", date := "Feb 4" : Show },
       { name := "A", source := "S", date := "Feb 5" : Show }] []).2.2
      { name := "A", source := "S", date := "Feb 4" : Show }
      (by decide) (by decide)⟩

/-- The timestamp-update loop of `save_shows` evaluated pointwise. -/
theorem save_shows_timestamps_aux (checked : List String) (ts : String) :
    ∀ (f : String → Option String) (s : String),
      (checked.foldl (fun acc source => fun x => if x = source then some ts else acc x) f) s
        = if s ∈ checked then some ts else f s := by
  induction checked with
  | nil => intro f s; simp
  | cons c cs ih =>
    intro f s
    simp only [List.foldl_cons]
    rw [ih]
    by_cases hs : s ∈ cs
    · simp [hs]
    · by_cases hc : s = c <;> simp [hs, hc]

/-- C2: the snapshot written by `save_shows` keeps prior shows of
unchecked sources in order, drops prior shows of checked sources,
appends the fresh shows after them, stamps exactly the checked sources
with the new timestamp (others keep their prior value), and sets
`count` to the merged length. -/
theorem save_shows_spec (shows : List Show) (sources_checked : List String)
    (existing_shows : List Show) (existing_timestamps : String → Option String)
    (timestamp : String) :
    ((save_shows shows sources_checked existing_shows existing_timestamps timestamp).shows
      = existing_shows.filter (fun sh => !(decide (sh.source ∈ sources_checked))) ++ shows) ∧
    (∀ s : String, s ∈ sources_checked →
      (save_shows shows sources_checked existing_shows existing_timestamps timestamp).last_updated_by_source s
        = some timestamp) ∧
    (∀ s : String, s ∉ sources_checked →
      (save_shows shows sources_checked existing_shows existing_timestamps timestamp).last_updated_by_source s
        = existing_timestamps s) ∧
    ((save_shows shows sources_checked existing_shows existing_timestamps timestamp).count
      = (save_shows shows sources_checked existing_shows existing_timestamps timestamp).shows.length) := by
  refine ⟨?_, ?_, ?_, rfl⟩
  · show (existing_shows.foldl
        (fun acc sh => if sh.source ∈ sources_checked then acc else acc ++ [sh]) []) ++ shows
      = existing_shows.filter (fun sh => !(decide (sh.source ∈ sources_checked))) ++ shows
    rw [foldl_ite_append (fun sh : Show => sh.source ∈ sources_checked) existing_shows []]
    simp
  · intro s hs
    show (sources_checked.foldl
        (fun acc source => fun x => if x = source then some timestamp else acc x)
        existing_timestamps) s = some timestamp
    rw [save_shows_timestamps_aux]
    simp [hs]
  · intro s hs
    show (sources_checked.foldl
        (fun acc source => fun x => if x = source then some timestamp else acc x)
        existing_timestamps) s = existing_timestamps s
    rw [save_shows_timestamps_aux]
    simp [hs]

/-- Witness for C2, the spec's carry-forward example: prior snapshot has
shows from sources A and B, only A is checked and returns a new list;
B's show and timestamp survive, A's are replaced. -/
theorem save_shows_spec_witness :
    ((save_shows [{ name := "show1x", source := "A" : Show }] ["A"]
        [{ name := "show2", source := "B" : Show }, { name := "show1", source := "A" : Show }]
        (fun s => if s = "A" then some "T1" else if s = "B" then some "T1" else none)
        "T2").shows
      = [{ name := "show2", source := "B" : Show }, { name := "show1x", source := "A" : Show }]) ∧
    ((save_shows [{ name := "show1x", source := "A" : Show }] ["A"]
        [{ name := "show2", source := "B" : Show }, { name := "show1", source := "A" : Show }]
        (fun s => if s = "A" then some "T1" else if s = "B" then some "T1" else none)
        "T2").last_updated_by_source "A" = some "T2") ∧
    ((save_shows [{ name := "show1x", source := "A" : Show }] ["A"]
        [{ name := "show2", source := "B" : Show }, { name := "show1", source := "A" : Show }]
        (fun s => if s = "A" then some "T1" else if s = "B" then some "T1" else none)
        "T2").last_updated_by_source "B" = some "T1") := by
  have h := save_shows_spec [{ name := "show1x", source := "A" : Show }] ["A"]
    [{ name := "show2", source := "B" : Show }, { name := "show1", source := "A" : Show }]
    (fun s => if s = "A" then some "T1" else if s = "B" then some "T1" else none) "T2"
  refine ⟨?_, h.2.1 "A" (by decide), ?_⟩
  · rw [h.1]; decide
  · rw [h.2.2.1 "B" (by decide)]; decide

/-- C3: `is_rare_show(show, history)` is true iff the show's
`ShowNameKey` is absent from the history or the number of recorded
appearance dates `>=` the cutoff (the date 30 days before today,
lifted to the parameter `cutoff_str`) is strictly below
`RARE_THRESHOLD_COUNT = 3`; exactly 2 recent appearances is rare,
exactly 3 is not, and an unrecorded key is always rare. -/
theorem is_rare_show_spec (sh : Show) (h : ShowHistory) (cutoff_str : String) :
    (is_rare_show sh h cutoff_str = true ↔
      histLookup h (get_show_name_key sh) = none ∨
      ∃ e, histLookup h (get_show_name_key sh) = some e ∧
        e.appearances.countP (fun d => strLe cutoff_str d) < RARE_THRESHOLD_COUNT) ∧
    (∀ e, histLookup h (get_show_name_key sh) = some e →
      e.appearances.countP (fun d => strLe cutoff_str d) = 2 →
      is_rare_show sh h cutoff_str = true) ∧
    (∀ e, histLookup h (get_show_name_key sh) = some e →
      e.appearances.countP (fun d => strLe cutoff_str d) = 3 →
      is_rare_show sh h cutoff_str = false) ∧
    (histLookup h (get_show_name_key sh) = none → is_rare_show sh h cutoff_str = true) := by
  cases hl : histLookup h (get_show_name_key sh) with
  | none =>
    refine ⟨?_, ?_, ?_, fun _ => ?_⟩ <;> simp [is_rare_show, hl]
  | some e =>
    refine ⟨?_, ?_, ?_, fun hnone => ?_⟩
    · simp [is_rare_show, hl]
    · intro e' he' hc
      rw [Option.some.injEq] at he'
      subst he'
      simp [is_rare_show, hl, hc, RARE_THRESHOLD_COUNT]
    · intro e' he' hc
      rw [Option.some.injEq] at he'
      subst he'
      simp [is_rare_show, hl, hc, RARE_THRESHOLD_COUNT]
    · exact absurd hnone (by simp [hl])

/-- Witness for C3: a key with exactly 2 appearances on or after the
cutoff is rare, one with exactly 3 is not, and a missing key is rare. -/
theorem is_rare_show_spec_witness :
    is_rare_show { name := "X", source := "S" : Show }
      [("S|x", { name := "X", source := "S",
                 appearances := ["2026-09-05", "2026-09-20", "2026-10-01"] })]
      "2026-09-12" = true ∧
    is_rare_show { name := "Y", source := "S" : Show }
      [("S|y", { name := "Y", source := "S",
                 appearances := ["2026-09-13", "2026-09-20", "2026-10-01"] })]
      "2026-09-12" = false ∧
    is_rare_show { name := "Z", source := "S" : Show } [] "2026-09-12" = true :=
  ⟨(is_rare_show_spec { name := "X", source := "S" : Show }
      [("S|x", { name := "X", source := "S",
                 appearances := ["2026-09-05", "2026-09-20", "2026-10-01"] })]
      "2026-09-12").2.1
      { name := "X", source := "S",
        appearances := ["2026-09-05", "2026-09-20", "2026-10-01"] }
      (by decide) (by decide),
   (is_rare_show_spec { name := "Y", source := "S" : Show }
      [("S|y", { name := "Y", source := "S",
                 appearances := ["2026-09-13", "2026-09-20", "2026-10-01"] })]
      "2026-09-12").2.2.1
      { name := "Y", source := "S",
        appearances := ["2026-09-13", "2026-09-20", "2026-10-01"] }
      (by decide) (by decide),
   (is_rare_show_spec { name := "Z", source := "S" : Show } [] "2026-09-12").2.2.2
      (by decide)⟩

/-- C10: `mark_rare_shows` is a per-element frame update: same length,
element `i` of the output is element `i` of the input with only the
`rare` field set (to `is_rare_show` of that show); all other fields of
the updated record are those of the input record. -/
theorem mark_rare_shows_spec (shows : List Show) (h : ShowHistory) (cutoff_str : String) :
    ((mark_rare_shows shows h cutoff_str).length = shows.length) ∧
    (∀ i : Nat, (mark_rare_shows shows h cutoff_str)[i]?
      = (shows[i]?).map (fun sh => { sh with rare := some (is_rare_show sh h cutoff_str) })) ∧
    (∀ sh : Show,
      ({ sh with rare := some (is_rare_show sh h cutoff_str) } : Show).name = sh.name ∧
      ({ sh with rare := some (is_rare_show sh h cutoff_str) } : Show).date = sh.date ∧
      ({ sh with rare := some (is_rare_show sh h cutoff_str) } : Show).source = sh.source ∧
      ({ sh with rare := some (is_rare_show sh h cutoff_str) } : Show).link = sh.link ∧
      ({ sh with rare := some (is_rare_show sh h cutoff_str) } : Show).image = sh.image ∧
      ({ sh with rare := some (is_rare_show sh h cutoff_str) } : Show).rare
        = some (is_rare_show sh h cutoff_str)) := by
  refine ⟨by simp [mark_rare_shows], ?_, ?_⟩
  · intro i
    simp [mark_rare_shows]
  · intro sh
    exact ⟨rfl, rfl, rfl, rfl, rfl, rfl⟩

/-- C5: the notification tail of `main` adds every new show's key and
persists the set whenever `new_shows` is non-empty, independently of
the SMTP password and of the send outcome (with an unset password the
email outcome is `false` yet the set is still persisted); the
persisted set is a superset of the loaded set. -/
theorem notification_step_spec (filtered_shows : List Show) (notified : List String)
    (pw pw' : String) (ok ok' : Bool) :
    (notified ⊆ (notification_step filtered_shows notified pw ok).1) ∧
    ((notification_step filtered_shows notified pw ok).1
        = (notification_step filtered_shows notified pw' ok').1) ∧
    (find_new_shows filtered_shows notified ≠ [] →
      (notification_step filtered_shows notified pw ok).2.1 = true ∧
      ∀ sh ∈ find_new_shows filtered_shows notified,
        get_show_key sh ∈ (notification_step filtered_shows notified pw ok).1) ∧
    (find_new_shows filtered_shows notified ≠ [] → pw = "" →
      (notification_step filtered_shows notified pw ok).2.2 = some false) := by
  by_cases hemp : (find_new_shows filtered_shows notified).isEmpty
  · have hne : ¬ (find_new_shows filtered_shows notified ≠ []) := by
      simpa [List.isEmpty_iff] using hemp
    refine ⟨?_, ?_, fun hn => absurd hn hne, fun hn _ => absurd hn hne⟩
    · simp [notification_step, hemp]
    · simp [notification_step, hemp]
  · refine ⟨?_, ?_, fun hn => ⟨?_, ?_⟩, fun hn hpw => ?_⟩
    · simp [notification_step, hemp]
    · simp [notification_step, hemp]
    · simp [notification_step, hemp]
    · intro sh hsh
      have hkey : get_show_key sh ∈ (find_new_shows filtered_shows notified).map get_show_key :=
        List.mem_map_of_mem get_show_key hsh
      simp [notification_step, hemp, List.mem_append, hkey]
    · simp [notification_step, send_email_notification_outcome, hemp, hpw]

/-- Witness for C5: one fresh show, empty notified set, unset SMTP
password: the key is added, the set is persisted, and the email
outcome is `false`. -/
theorem notification_step_spec_witness :
    (notification_step [{ name := "Cirque", date := "2026-02-01", source := "HouseSeats", link := "http://x" : Show }] [] "" false).2.1 = true ∧
    ("HouseSeats|Cirque|2026-02-01"
      ∈ (notification_step [{ name := "Cirque", date := "2026-02-01", source := "HouseSeats", link := "http://x" : Show }] [] "" false).1) ∧
    (notification_step [{ name := "Cirque", date := "2026-02-01", source := "HouseSeats", link := "http://x" : Show }] [] "" false).2.2 = some false := by
  have h := notification_step_spec
    [{ name := "Cirque", date := "2026-02-01", source := "HouseSeats", link := "http://x" : Show }]
    [] "" "" false false
  refine ⟨(h.2.2.1 (by decide)).1, ?_, h.2.2.2 (by decide) rfl⟩
  have hmem := (h.2.2.1 (by decide)).2
    { name := "Cirque", date := "2026-02-01", source := "HouseSeats", link := "http://x" : Show }
    (by decide)
  simpa using hmem

/-- Failing `a <= b` is exactly `b < a` (Python's total string order). -/
theorem charListLe_eq_false_iff (a : List Char) :
    ∀ b : List Char, charListLe a b = false ↔ charListLt b a = true := by
  induction a with
  | nil => intro b; cases b <;> simp [charListLe, charListLt]
  | cons x xs ih =>
    intro b
    cases b with
    | nil => simp [charListLe, charListLt]
    | cons y ys =>
      simp only [charListLe, charListLt]
      by_cases h1 : x < y
      · have h2 : ¬ y < x := lt_asymm h1
        simp [h1, h2]
      · by_cases h2 : y < x
        · simp [h1, h2]
        · simp [h1, h2, ih ys]

/-- `strLe c d = false` iff `strLt d c` ("not on-or-after" = "strictly
before"). -/
theorem strLe_eq_false_iff (c d : String) :
    strLe c d = false ↔ strLt d c = true :=
  charListLe_eq_false_iff c.data d.data

/-- In a history with no duplicate keys, an association is unique. -/
theorem histEntry_unique :
    ∀ (h : ShowHistory), (h.map Prod.fst).Nodup →
      ∀ {k : String} {e₁ e₂ : HistoryEntry}, (k, e₁) ∈ h → (k, e₂) ∈ h → e₁ = e₂ := by
  intro h
  induction h with
  | nil => intro _ k e₁ e₂ h1 _; cases h1
  | cons p ps ih =>
    intro hnd k e₁ e₂ h1 h2
    have hnd' := List.nodup_cons.mp (by simpa only [List.map_cons] using hnd)
    rcases List.mem_cons.mp h1 with he1 | h1'
    · rcases List.mem_cons.mp h2 with he2 | h2'
      · have hee : (k, e₁) = ((k, e₂) : String × HistoryEntry) := he1.trans he2.symm
        injection hee with _ hsnd
      · exfalso
        have hk : k ∈ ps.map Prod.fst := List.mem_map_of_mem Prod.fst h2'
        rw [← he1] at hnd'
        exact hnd'.1 hk
    · rcases List.mem_cons.mp h2 with he2 | h2'
      · exfalso
        have hk : k ∈ ps.map Prod.fst := List.mem_map_of_mem Prod.fst h1'
        rw [← he2] at hnd'
        exact hnd'.1 hk
      · exact ih hnd'.2 h1' h2'

/-- C7: for a duplicate-free history, `cleanup_old_history` keeps per
key exactly the appearance dates on or after the cutoff (the date 90
days before today, lifted to the parameter `cutoff_str`; `strLe
cutoff_str d = false ↔ d` is strictly older), drops every key whose
dates are all strictly older than the cutoff, and every surviving
entry is an original entry with its appearances so filtered and
non-empty. -/
theorem cleanup_old_history_spec (h : ShowHistory) (cutoff_str : String)
    (hnd : (h.map Prod.fst).Nodup) :
    (∀ p ∈ cleanup_old_history h cutoff_str,
      ∃ e, (p.1, e) ∈ h ∧
        p.2 = { e with appearances := e.appearances.filter (fun d => strLe cutoff_str d) } ∧
        p.2.appearances ≠ []) ∧
    (∀ k e, (k, e) ∈ h →
      ((∀ d ∈ e.appearances, strLt d cutoff_str = true) →
        ∀ e', (k, e') ∉ cleanup_old_history h cutoff_str) ∧
      ((∃ d ∈ e.appearances, strLe cutoff_str d = true) →
        (k, { e with appearances := e.appearances.filter (fun d => strLe cutoff_str d) })
          ∈ cleanup_old_history h cutoff_str)) ∧
    (∀ c d : String, strLe c d = false ↔ strLt d c = true) := by
  refine ⟨?_, ?_, fun c d => strLe_eq_false_iff c d⟩
  · intro p hp
    unfold cleanup_old_history at hp
    rcases List.mem_filter.mp hp with ⟨hmap, hne⟩
    rcases List.mem_map.mp hmap with ⟨q, hq, hfq⟩
    refine ⟨q.2, ?_, ?_, ?_⟩
    · rw [← hfq]; exact hq
    · rw [← hfq]
    · simpa using hne
  · intro k e hke
    constructor
    · intro hold e' he'
      unfold cleanup_old_history at he'
      rcases List.mem_filter.mp he' with ⟨hmap, hne⟩
      rcases List.mem_map.mp hmap with ⟨q, hq, hfq⟩
      have hk : q.1 = k := congrArg Prod.fst hfq
      have hqe : q.2 = e := by
        refine histEntry_unique h hnd ?_ hke
        rw [← hk]; exact hq
      have hfil : q.2.appearances.filter (fun d => strLe cutoff_str d) = [] := by
        rw [hqe]
        rw [List.filter_eq_nil_iff]
        intro d hd
        have := hold d hd
        simp [← strLe_eq_false_iff] at this
        simp [this]
      have he2 : e'.appearances = [] := by
        have := congrArg Prod.snd hfq
        simp at this
        rw [← this, hfil]
      simp [he2] at hne
    · intro hsome
      rcases hsome with ⟨d, hd, hdle⟩
      unfold cleanup_old_history
      apply List.mem_filter.mpr
      constructor
      · exact List.mem_map.mpr ⟨(k, e), hke, rfl⟩
      · have hmemf : d ∈ e.appearances.filter (fun x => strLe cutoff_str x) :=
          List.mem_filter.mpr ⟨hd, hdle⟩
        have hne : e.appearances.filter (fun x => strLe cutoff_str x) ≠ [] := by
          intro hnil
          rw [hnil] at hmemf
          cases hmemf
        simp only [Bool.not_eq_true', List.isEmpty_eq_false]
        exact hne

/-- Witness for C7: a key whose only appearance is 91 days before today
(cutoff = 90 days before) is removed entirely; a date exactly on the
cutoff is kept. -/
theorem cleanup_old_history_spec_witness :
    (("S|x", { name := "X", source := "S", appearances := ["2026-07-13"] : HistoryEntry })
       ∉ cleanup_old_history
           [("S|x", { name := "X", source := "S", appearances := ["2026-07-13"] })]
           "2026-07-14") ∧
    (("S|y", { name := "Y", source := "S", appearances := ["2026-07-14"] : HistoryEntry })
       ∈ cleanup_old_history
           [("S|y", { name := "Y", source := "S", appearances := ["2026-07-13", "2026-07-14"] })]
           "2026-07-14") :=
  ⟨((cleanup_old_history_spec
        [("S|x", { name := "X", source := "S", appearances := ["2026-07-13"] })]
        "2026-07-14" (by decide)).2.1 "S|x"
        { name := "X", source := "S", appearances := ["2026-07-13"] }
        (by decide)).1 (by decide)
        { name := "X", source := "S", appearances := ["2026-07-13"] },
   ((cleanup_old_history_spec
        [("S|y", { name := "Y", source := "S", appearances := ["2026-07-13", "2026-07-14"] })]
        "2026-07-14" (by decide)).2.1 "S|y"
        { name := "Y", source := "S", appearances := ["2026-07-13", "2026-07-14"] }
        (by decide)).2 ⟨"2026-07-14", by decide, by decide⟩⟩

/-- Mapping a function that fixes every element is the identity. -/
theorem list_map_eq_self {α : Type} (f : α → α) (l : List α)
    (hf : ∀ x ∈ l, f x = x) : l.map f = l := by
  induction l with
  | nil => rfl
  | cons x xs ih =>
    rw [List.map_cons, hf x (List.mem_cons_self x xs),
      ih (fun y hy => hf y (List.mem_cons_of_mem x hy))]

/-- One fold step of `update_show_history` unfolded. -/
theorem update_show_history_cons (s : Show) (ss : List Show) (h : ShowHistory)
    (today : String) :
    update_show_history (s :: ss) h today
      = update_show_history ss (update_show_history_step today h s) today := rfl

/-- Lookup through `appendToday`. -/
theorem histLookup_appendToday (today key : String) (h : ShowHistory) (k : String) :
    histLookup (appendToday today key h) k =
      if k = key then
        (histLookup h k).map (fun e =>
          if today ∈ e.appearances then e
          else { e with appearances := e.appearances ++ [today] })
      else histLookup h k := by
  induction h with
  | nil => simp [appendToday, histLookup]
  | cons p ps ih =>
    simp only [appendToday] at ih ⊢
    rw [List.map_cons]
    by_cases hpk : p.1 = key
    · by_cases hk : k = p.1
      · have hkey : k = key := hk.trans hpk
        simp [histLookup, hk, hkey, hpk]
      · have hkey : ¬ k = key := fun h' => hk (h'.trans hpk.symm)
        simp [histLookup, hpk, hk, hkey, ih]
    · by_cases hk : k = p.1
      · have hkey : ¬ k = key := fun h' => hpk (hk.symm.trans h')
        simp [histLookup, hpk, hk, hkey]
      · simp [histLookup, hpk, hk, ih]

/-- Lookup through list append. -/
theorem histLookup_append (h₁ h₂ : ShowHistory) (k : String) :
    histLookup (h₁ ++ h₂) k =
      match histLookup h₁ k with
      | some e => some e
      | none => histLookup h₂ k := by
  induction h₁ with
  | nil => simp [histLookup]
  | cons p ps ih =>
    by_cases hk : k = p.1 <;> simp [histLookup, hk, ih]

/-- `update_show_history_step` with its `let`s expanded. -/
theorem update_show_history_step_eq (today : String) (h : ShowHistory) (sh : Show) :
    update_show_history_step today h sh
      = appendToday today (get_show_name_key sh)
          (if histHasKey h (get_show_name_key sh) then h
           else h ++ [(get_show_name_key sh,
              { name := sh.name, source := sh.source, appearances := [] })]) := rfl

/-- Master lookup lemma for one `update_show_history` iteration. -/
theorem histLookup_step (today : String) (h : ShowHistory) (sh : Show) (k : String) :
    histLookup (update_show_history_step today h sh) k =
      if k = get_show_name_key sh then
        match histLookup h k with
        | some e =>
          some (if today ∈ e.appearances then e
                else { e with appearances := e.appearances ++ [today] })
        | none => some { name := sh.name, source := sh.source, appearances := [today] }
      else histLookup h k := by
  rw [update_show_history_step_eq, histLookup_appendToday]
  by_cases hk : k = get_show_name_key sh
  · simp only [hk, if_pos rfl]
    by_cases hhk : histHasKey h (get_show_name_key sh)
    · rw [if_pos hhk]
      unfold histHasKey at hhk
      cases hl : histLookup h (get_show_name_key sh) with
      | none => rw [hl] at hhk; cases hhk
      | some e => simp
    · rw [if_neg hhk]
      unfold histHasKey at hhk
      cases hl : histLookup h (get_show_name_key sh) with
      | none =>
        rw [histLookup_append, hl]
        simp [histLookup]
      | some e => rw [hl] at hhk; simp at hhk
  · rw [if_neg hk, if_neg hk]
    by_cases hhk : histHasKey h (get_show_name_key sh)
    · rw [if_pos hhk]
    · rw [if_neg hhk, histLookup_append]
      cases hl : histLookup h k with
      | none => simp [histLookup, hk]
      | some e => simp

/-- Every entry after one update step is an original entry or records
today. -/
theorem step_mem (today : String) (h : ShowHistory) (sh : Show) :
    ∀ p ∈ update_show_history_step today h sh, p ∈ h ∨ today ∈ p.2.appearances := by
  intro p hp
  unfold update_show_history_step appendToday at hp
  rcases List.mem_map.mp hp with ⟨q, hq, hfq⟩
  by_cases hqk : q.1 = get_show_name_key sh
  · right
    rw [← hfq]
    simp only [hqk, if_pos rfl]
    by_cases ht : today ∈ q.2.appearances
    · simp [ht]
    · simp [ht]
  · left
    rw [← hfq]
    simp only [hqk, if_neg hqk]
    by_cases hhk : histHasKey h (get_show_name_key sh)
    · rw [if_pos hhk] at hq; exact hq
    · rw [if_neg hhk] at hq
      rcases List.mem_append.mp hq with hq' | hq'
      · exact hq'
      · exfalso
        rcases List.mem_singleton.mp hq' with rfl
        exact hqk rfl

/-- After one update step, every entry carrying the show's key records
today. -/
theorem step_self_hasToday (today : String) (h : ShowHistory) (sh : Show) :
    ∀ p ∈ update_show_history_step today h sh,
      p.1 = get_show_name_key sh → today ∈ p.2.appearances := by
  intro p hp hpk
  unfold update_show_history_step appendToday at hp
  rcases List.mem_map.mp hp with ⟨q, hq, hfq⟩
  by_cases hqk : q.1 = get_show_name_key sh
  · rw [← hfq]
    simp only [hqk, if_pos rfl]
    by_cases ht : today ∈ q.2.appearances
    · simp [ht]
    · simp [ht]
  · exfalso
    apply hqk
    rw [← hpk, ← hfq]
    simp [hqk]

/-- One update step leaves the history unchanged when the show's key is
present and every entry with that key already records today. -/
theorem step_eq_self (today : String) (h : ShowHistory) (sh : Show)
    (hpres : histHasKey h (get_show_name_key sh) = true)
    (htod : ∀ p ∈ h, p.1 = get_show_name_key sh → today ∈ p.2.appearances) :
    update_show_history_step today h sh = h := by
  rw [update_show_history_step_eq, if_pos hpres]
  unfold appendToday
  apply list_map_eq_self
  intro p hp
  by_cases hpk : p.1 = get_show_name_key sh
  · rw [if_pos hpk, if_pos (htod p hp hpk)]
  · rw [if_neg hpk]

/-- One update step makes the show's key present. -/
theorem step_hasKey (today : String) (h : ShowHistory) (sh : Show) :
    histHasKey (update_show_history_step today h sh) (get_show_name_key sh) = true := by
  unfold histHasKey
  rw [histLookup_step]
  simp only [if_pos rfl]
  cases histLookup h (get_show_name_key sh) <;> simp

/-- One update step preserves key presence. -/
theorem step_preserves_hasKey (today : String) (h : ShowHistory) (sh : Show)
    (k : String) (hk : histHasKey h k = true) :
    histHasKey (update_show_history_step today h sh) k = true := by
  unfold histHasKey at *
  rw [histLookup_step]
  by_cases he : k = get_show_name_key sh
  · simp only [he, if_pos rfl]
    cases histLookup h (get_show_name_key sh) <;> simp
  · rw [if_neg he]; exact hk

/-- The full update preserves key presence. -/
theorem update_preserves_hasKey (shows : List Show) (today : String) :
    ∀ (h : ShowHistory) (k : String), histHasKey h k = true →
      histHasKey (update_show_history shows h today) k = true := by
  induction shows with
  | nil => intro h k hk; exact hk
  | cons s ss ih =>
    intro h k hk
    rw [update_show_history_cons]
    exact ih _ k (step_preserves_hasKey today h s k hk)

/-- The full update preserves "every entry with key `k` records today". -/
theorem update_preserves_todayAll (shows : List Show) (today : String) :
    ∀ (h : ShowHistory) (k : String),
      (∀ p ∈ h, p.1 = k → today ∈ p.2.appearances) →
      ∀ p ∈ update_show_history shows h today, p.1 = k → today ∈ p.2.appearances := by
  induction shows with
  | nil => intro h k hk; exact hk
  | cons s ss ih =>
    intro h k hk
    rw [update_show_history_cons]
    apply ih
    intro p hp hpk
    rcases step_mem today h s p hp with hmem | htod
    · exact hk p hmem hpk
    · exact htod

/-- After the full update, every listed show's key is present and every
entry with that key records today. -/
theorem update_establishes (shows : List Show) (today : String) :
    ∀ (h : ShowHistory), ∀ sh ∈ shows,
      histHasKey (update_show_history shows h today) (get_show_name_key sh) = true ∧
      (∀ p ∈ update_show_history shows h today,
        p.1 = get_show_name_key sh → today ∈ p.2.appearances) := by
  induction shows with
  | nil => intro h sh hsh; cases hsh
  | cons s ss ih =>
    intro h sh hsh
    rcases List.mem_cons.mp hsh with rfl | hmem
    · rw [update_show_history_cons]
      constructor
      · exact update_preserves_hasKey ss today _ _ (step_hasKey today h sh)
      · exact update_preserves_todayAll ss today _ _ (step_self_hasToday today h sh)
    · rw [update_show_history_cons]
      exact ih _ sh hmem

/-- The full update is the identity when every listed show's key is
present with today recorded. -/
theorem update_eq_self (shows : List Show) (today : String) :
    ∀ (h : ShowHistory),
      (∀ sh ∈ shows,
        histHasKey h (get_show_name_key sh) = true ∧
        (∀ p ∈ h, p.1 = get_show_name_key sh → today ∈ p.2.appearances)) →
      update_show_history shows h today = h := by
  induction shows with
  | nil => intro h _; rfl
  | cons s ss ih =>
    intro h H
    rw [update_show_history_cons,
      step_eq_self today h s (H s (List.mem_cons_self s ss)).1 (H s (List.mem_cons_self s ss)).2]
    exact ih h (fun sh hsh => H sh (List.mem_cons_of_mem s hsh))

/-- Per-key appearances change of one update step: unchanged, or today
appended once when absent. -/
theorem step_appearances (today : String) (h : ShowHistory) (sh : Show) (k : String) :
    appearancesOf (update_show_history_step today h sh) k = appearancesOf h k ∨
    (today ∉ appearancesOf h k ∧
     appearancesOf (update_show_history_step today h sh) k
       = appearancesOf h k ++ [today]) := by
  unfold appearancesOf
  rw [histLookup_step]
  by_cases hk : k = get_show_name_key sh
  · simp only [hk, if_pos rfl]
    cases hl : histLookup h (get_show_name_key sh) with
    | none => right; simp
    | some e =>
      by_cases ht : today ∈ e.appearances
      · left; simp [ht]
      · right; simp [ht]
  · left; rw [if_neg hk]

/-- Per-key appearances change of the full update. -/
theorem update_appearances (shows : List Show) (today : String) :
    ∀ (h : ShowHistory) (k : String),
      appearancesOf (update_show_history shows h today) k = appearancesOf h k ∨
      (today ∉ appearancesOf h k ∧
       appearancesOf (update_show_history shows h today) k
         = appearancesOf h k ++ [today]) := by
  induction shows with
  | nil => intro h k; left; rfl
  | cons s ss ih =>
    intro h k
    rw [update_show_history_cons]
    rcases step_appearances today h s k with he | ⟨hn, ha⟩
    · rcases ih (update_show_history_step today h s) k with h2e | ⟨h2n, h2a⟩
      · left; rw [h2e, he]
      · right
        rw [he] at h2n h2a
        exact ⟨h2n, h2a⟩
    · rcases ih (update_show_history_step today h s) k with h2e | ⟨h2n, h2a⟩
      · right; rw [h2e, ha]; exact ⟨hn, rfl⟩
      · exfalso
        rw [ha] at h2n
        exact h2n (List.mem_append_right _ (List.mem_singleton.mpr rfl))

/-- C6: `update_show_history` is idempotent for a fixed day, and per
`ShowNameKey` it either leaves the recorded appearances unchanged or
appends today's date exactly once (only when that date was absent). -/
theorem update_show_history_spec (shows : List Show) (h : ShowHistory) (today : String) :
    (update_show_history shows (update_show_history shows h today) today
      = update_show_history shows h today) ∧
    (∀ key : String,
      appearancesOf (update_show_history shows h today) key = appearancesOf h key ∨
      (today ∉ appearancesOf h key ∧
       appearancesOf (update_show_history shows h today) key
         = appearancesOf h key ++ [today])) :=
  ⟨update_eq_self shows today (update_show_history shows h today)
      (fun sh hsh => update_establishes shows today h sh hsh),
   fun key => update_appearances shows today h key⟩

/-- Within a month, `rataDie` is linear in the day. -/
theorem rataDie_day (y m d : Nat) : rataDie y m d = rataDie y m 0 + d := by
  unfold rataDie
  generalize daysBeforeMonth m (isLeapYear y) = B
  omega

/-- C9: for every year, the code's weekday arithmetic selects exactly
the second Sunday of March (the unique day in 8..14 whose Python
weekday is 6 = Sunday) as `dst_start` and exactly the first Sunday of
November (the unique Sunday in 1..7) as `dst_end`; the offset is `-7`
precisely when the UTC instant (calendar fields `y-m-d` plus `sec`
seconds past midnight) is on or after the `dst_start` midnight and
strictly before the `dst_end` midnight of its year, else `-8`.  The
weekday convention is anchored to Python's (`0001-01-01` is Monday = 0,
`2024-03-01` is Friday = 4). -/
theorem get_pacific_time_dst_window (y m d sec : Nat) :
    (∀ day : Nat,
      (pythonWeekday y 3 day = 6 ∧ 8 ≤ day ∧ day ≤ 14) ↔ day = dst_start_day y) ∧
    (∀ day : Nat,
      (pythonWeekday y 11 day = 6 ∧ 1 ≤ day ∧ day ≤ 7) ↔ day = dst_end_day y) ∧
    (get_pacific_offset_hours y m d sec = -7 ↔
      (instantSeconds y 3 (dst_start_day y) 0 ≤ instantSeconds y m d sec ∧
       instantSeconds y m d sec < instantSeconds y 11 (dst_end_day y) 0)) ∧
    pythonWeekday 1 1 1 = 0 ∧ pythonWeekday 2024 3 1 = 4 := by
  refine ⟨?_, ?_, ?_, by decide, by decide⟩
  · intro day
    unfold dst_start_day pythonWeekday
    rw [rataDie_day y 3 day, rataDie_day y 3 1]
    generalize rataDie y 3 0 = b
    omega
  · intro day
    unfold dst_end_day pythonWeekday
    rw [rataDie_day y 11 day, rataDie_day y 11 1]
    generalize rataDie y 11 0 = b
    omega
  · simp only [get_pacific_offset_hours]
    split
    · next hc => exact iff_of_true rfl hc
    · next hc => exact iff_of_false (by decide) hc

/-- C1 counterexample: a HouseSeats panel whose heading link has empty
`href` and which has no `grid-cal-date` element yields an appended show
with non-empty name but empty `date` and empty `link` — the HouseSeats
loop only checks the name before appending. -/
theorem fetch_houseseats_empty_fields_counterexample :
    ((fetch_houseseats_shows [{ headingLink := some ("Mystery Show", "") }]).map
        (fun s => (s.name, s.date, s.link)) = [("Mystery Show", "", "")]) ∧
    ¬ (∀ s ∈ fetch_houseseats_shows [{ headingLink := some ("Mystery Show", "") }],
        s.date ≠ "" ∧ s.link ≠ "") := by
  decide

/-- C1 (amended): every show appended by the 1stTix connector has
non-empty name, date and link (its loop checks all three before
appending); every show appended by the HouseSeats connector has
non-empty name (the only field its loop checks). -/
theorem connectors_materialize_fields (events : List FTEvent) (panels : List HSPanel) :
    (∀ s ∈ fetch_firsttix_shows events, s.name ≠ "" ∧ s.date ≠ "" ∧ s.link ≠ "") ∧
    (∀ s ∈ fetch_houseseats_shows panels, s.name ≠ "") := by
  constructor
  · intro s hs
    unfold fetch_firsttix_shows at hs
    rcases List.mem_filter.mp hs with ⟨_, hkeep⟩
    simp only [ft_keep, Bool.and_eq_true, bne_iff_ne, ne_eq] at hkeep
    obtain ⟨⟨⟨hn, _⟩, hl⟩, hd⟩ := hkeep
    exact ⟨hn, hd, hl⟩
  · intro s hs
    unfold fetch_houseseats_shows at hs
    rcases List.mem_filter.mp hs with ⟨_, hname⟩
    simpa using hname

/-- Witness for C1 (amended): a concrete 1stTix event and a concrete
HouseSeats panel, with the guarantees instantiated on the shows they
produce. -/
theorem connectors_materialize_fields_witness :
    ((ft_show_of_event { imgAlt := some "A", dateMatch := some "Feb 4", timeMatch := some "7 PM", linkHref := some "https://x" }).name ≠ "" ∧
     (ft_show_of_event { imgAlt := some "A", dateMatch := some "Feb 4", timeMatch := some "7 PM", linkHref := some "https://x" }).date ≠ "" ∧
     (ft_show_of_event { imgAlt := some "A", dateMatch := some "Feb 4", timeMatch := some "7 PM", linkHref := some "https://x" }).link ≠ "") ∧
    (hs_show_of_panel { headingLink := some ("Mystery Show", "./show.bv"), dateText := some "Feb 4" }).name ≠ "" :=
  ⟨(connectors_materialize_fields
      [{ imgAlt := some "A", dateMatch := some "Feb 4", timeMatch := some "7 PM", linkHref := some "https://x" }]
      []).1
      (ft_show_of_event { imgAlt := some "A", dateMatch := some "Feb 4", timeMatch := some "7 PM", linkHref := some "https://x" })
      (by decide),
   (connectors_materialize_fields []
      [{ headingLink := some ("Mystery Show", "./show.bv"), dateText := some "Feb 4" }]).2
      (hs_show_of_panel { headingLink := some ("Mystery Show", "./show.bv"), dateText := some "Feb 4" })
      (by decide)⟩

end HSChecker
